import Mathlib

/-! DrawChat service worker: cache policy and outbound message replay.

A shallow embedding of `service-worker.js`.  The worker's listeners and helper
functions become pure functions over an explicit world: the origin's cache
storage, the `MessageQueue` database, and the outcome of every network fetch.
The platform objects the worker calls (`caches`, `Cache`, `indexedDB`, `fetch`)
are modelled after the Service Worker, Fetch and IndexedDB standards, as far
as the worker's code exercises them.
-/

namespace ServiceWorker

/-! ## Platform values -/

/-- How a promise ends once the event loop has nothing left to run.
`pending` is a promise that is never settled. -/
inductive Settled (α : Type) where
  | resolved (value : α)
  | rejected (error : String)
  | pending
deriving DecidableEq, Repr

/-- An absolute http-like URL.  `path` is the path together with the query. -/
structure URL where
  scheme : String
  host : String
  port : Option Nat
  path : String
deriving DecidableEq, Repr

/-- Serialised origin, the value of `location.origin`: scheme, host and the
port when it is not the default one. -/
def URL.origin (u : URL) : String :=
  u.scheme ++ "://" ++ u.host ++
    (match u.port with
     | none => ""
     | some p => ":" ++ toString p)

/-- Serialised URL, the value of `request.url`. -/
def URL.href (u : URL) : String := u.origin ++ u.path

/-- A root-relative reference such as `'/offline-page.html'` resolved against
the worker's own location. -/
def URL.resolve (base : URL) (path : String) : URL := { base with path := path }

/-- JavaScript `s.startsWith(p)`. -/
def startsWith (s p : String) : Bool := p.data.isPrefixOf s.data

structure Request where
  url : URL
  method : String
  mode : String
  headers : List (String × String)
deriving DecidableEq, Repr

/-- The request built from a URL string: `GET`, no headers of its own. -/
def Request.ofPath (base : URL) (path : String) : Request :=
  { url := base.resolve path, method := "GET", mode := "cors", headers := [] }

structure Response where
  status : Nat
  type : String
  /-- Field names listed in the `Vary` header. -/
  vary : List String
  body : String
  /-- Whether the body parses as JSON, that is whether `response.json()` resolves. -/
  bodyIsJson : Bool
deriving DecidableEq, Repr

/-- The getter `response.ok`: the status is in the range 200 to 299. -/
def Response.ok (r : Response) : Bool := 200 ≤ r.status && r.status ≤ 299

/-- Outcome of one `fetch(...)` call: it resolves with a response (of any
status) or rejects with a transport error. -/
inductive FetchResult where
  | resolved (response : Response)
  | rejected (error : String)
deriving DecidableEq, Repr

/-! ## Cache storage -/

structure CacheEntry where
  request : Request
  response : Response
deriving DecidableEq, Repr

/-- A cache: its request-response list in insertion order. -/
abbrev Cache := List CacheEntry

/-- The origin's `caches`: the name-to-cache map in creation order. -/
abbrev CacheStorage := List (String × Cache)

/-- Value of a header of a request, if present. -/
def Request.header (q : Request) (name : String) : Option String := q.headers.lookup name

/-- The standard's "request matches cached item" with default options: only
`GET` requests match, URLs are compared, and every field named by the stored
response's `Vary` header must agree between the two requests. -/
def requestMatches (q : Request) (e : CacheEntry) : Bool :=
  q.method == "GET" && q.url == e.request.url &&
    e.response.vary.all (fun f => f != "*" && q.header f == e.request.header f)

/-- Lookup `cache.match(request)`: the first matching entry's response. -/
def cacheMatch (c : Cache) (q : Request) : Option Response :=
  (c.find? (requestMatches q)).map (·.response)

/-- Lookup `caches.match(request)`: every cache of the origin is searched, in
creation order, and the first match is the result. -/
def cachesMatch : CacheStorage → Request → Option Response
  | [], _ => none
  | (_, c) :: rest, q =>
    match cacheMatch c q with
    | some r => some r
    | none => cachesMatch rest q

/-- The cache registered under `name`, if any. -/
def cachesGet (s : CacheStorage) (name : String) : Option Cache := s.lookup name

/-- The content of the cache called `name` (empty when there is none). -/
def cacheOf (s : CacheStorage) (name : String) : Cache := (cachesGet s name).getD []

/-- Call `caches.open(name)`: creates an empty cache when none has that name. -/
def cachesOpen (s : CacheStorage) (name : String) : CacheStorage :=
  if s.any (fun nc => nc.1 == name) then s else s ++ [(name, [])]

/-- Call `caches.keys()`. -/
def cachesKeys (s : CacheStorage) : List String := s.map (·.1)

/-- Call `caches.delete(name)`. -/
def cachesDelete (s : CacheStorage) (name : String) : CacheStorage :=
  s.filter (fun nc => nc.1 != name)

/-- Replace the content of the cache called `name`. -/
def cachesSet (s : CacheStorage) (name : String) (c : Cache) : CacheStorage :=
  s.map (fun nc => if nc.1 == name then (nc.1, c) else nc)

/-- Whether `cache.put(request, response)` accepts the pair: it rejects with a
`TypeError` a request that is not an http(s) `GET`, a 206 response and a
response with `Vary: *`. -/
def putAccepts (q : Request) (r : Response) : Bool :=
  (q.url.scheme == "http" || q.url.scheme == "https") && q.method == "GET" &&
    r.status != 206 && !(r.vary.contains "*")

/-- The write of a `put` batch operation: entries matching the request are
removed and the new pair is appended. -/
def cacheWrite (c : Cache) (q : Request) (r : Response) : Cache :=
  c.filter (fun e => !requestMatches q e) ++ [⟨q, r⟩]

/-- Call `cache.put(request, response)`. -/
def cachePut (c : Cache) (q : Request) (r : Response) : Except String Cache :=
  if putAccepts q r then .ok (cacheWrite c q r) else .error "TypeError"

/-- Whether `cache.addAll` accepts a fetched response: ok status, not 206, no `Vary: *`. -/
def addAllAccepts (r : Response) : Bool :=
  r.ok && r.status != 206 && !(r.vary.contains "*")

/-- The fetch phase of `cache.addAll`: one fetch per request; any transport
error or unacceptable response rejects the whole call. -/
def addAllFetch (net : Request → FetchResult) : List Request → Except String (List CacheEntry)
  | [] => .ok []
  | q :: rest =>
    match net q with
    | .rejected e => .error e
    | .resolved r =>
      if addAllAccepts r then
        match addAllFetch net rest with
        | .ok es => .ok (⟨q, r⟩ :: es)
        | .error e => .error e
      else .error "TypeError"

/-- The batch of `put` operations run by `cache.addAll`: a request matching an
item added earlier in the same batch throws `InvalidStateError`. -/
def addAllBatch (c : Cache) (added : List CacheEntry) : List CacheEntry → Except String Cache
  | [] => .ok c
  | e :: rest =>
    if added.any (requestMatches e.request) then .error "InvalidStateError"
    else addAllBatch (cacheWrite c e.request e.response) (added ++ [e]) rest

/-- Call `cache.addAll(urls)`.  The batch is atomic: on any error the cache
keeps its former content. -/
def cacheAddAll (base : URL) (net : Request → FetchResult) (c : Cache) (urls : List String) :
    Except String Cache :=
  let requests := urls.map (Request.ofPath base)
  if requests.all (fun q => q.url.scheme == "http" || q.url.scheme == "https") then
    match addAllFetch net requests with
    | .error e => .error e
    | .ok entries => addAllBatch c [] entries
  else .error "TypeError"

/-! ## The worker: cache manager -/

def CACHE_NAME : String := "drawchat-v1"

def ASSETS_TO_CACHE : List String :=
  ["/", "/index.html", "/styles.css", "/app.js", "/manifest.json", "/offline-page.html",
   "/NoahCapstone.png"]

structure InstallOutcome where
  /-- The promise handed to `event.waitUntil`. -/
  waitUntil : Settled Unit
  skipWaiting : Bool
  caches : CacheStorage
deriving DecidableEq, Repr

/-- The `install` listener: open the generation `CACHE_NAME`, add every asset
of the manifest, then skip waiting. -/
def onInstall (location : URL) (net : Request → FetchResult) (s : CacheStorage) :
    InstallOutcome :=
  let s1 := cachesOpen s CACHE_NAME
  match cacheAddAll location net (cacheOf s1 CACHE_NAME) ASSETS_TO_CACHE with
  | .error e => ⟨.rejected e, false, s1⟩
  | .ok cache1 => ⟨.resolved (), true, cachesSet s1 CACHE_NAME cache1⟩

/-- The `activate` listener: every cache whose name is not `CACHE_NAME` is
deleted (`clients.claim()` touches no cache). -/
def onActivate (s : CacheStorage) : CacheStorage :=
  (cachesKeys s).foldl
    (fun acc cacheName => if cacheName != CACHE_NAME then cachesDelete acc cacheName else acc) s

/-- What a `fetch` event makes the worker do, in order. -/
inductive Effect where
  | cachesMatch (request : Request)
  | fetch (request : Request)
  | cachesOpen (name : String)
  | cachePut (name : String) (request : Request) (response : Response)
deriving DecidableEq, Repr

/-- How the listener answers the event: it returns without `respondWith`
(the browser handles the request itself), or the promise given to
`respondWith` resolves with a response or with `undefined`. -/
inductive Reply where
  | notIntercepted
  | respondWith (response : Option Response)
deriving DecidableEq, Repr

structure FetchOutcome where
  reply : Reply
  effects : List Effect
  /-- The cache storage once the detached write has settled. -/
  caches : CacheStorage
deriving DecidableEq, Repr

/-- The detached chain `caches.open(CACHE_NAME).then(cache => cache.put(...))`;
a rejected `put` is an unhandled rejection and writes nothing. -/
def putInCurrent (s : CacheStorage) (q : Request) (r : Response) : CacheStorage :=
  let s1 := cachesOpen s CACHE_NAME
  match cachePut (cacheOf s1 CACHE_NAME) q r with
  | .error _ => s1
  | .ok cache1 => cachesSet s1 CACHE_NAME cache1

/-- The `fetch` listener.  `net` is how `fetch(event.request)` settles if it
is called.  A fetched response is an object, so the test `!response` of the
source is never true. -/
def onFetch (location : URL) (s : CacheStorage) (net : FetchResult) (request : Request) :
    FetchOutcome :=
  if !startsWith request.url.href location.origin then
    ⟨.notIntercepted, [], s⟩
  else
    match cachesMatch s request with
    | some response => ⟨.respondWith (some response), [.cachesMatch request], s⟩
    | none =>
      match net with
      | .resolved response =>
        if response.status != 200 || response.type != "basic" then
          ⟨.respondWith (some response), [.cachesMatch request, .fetch request], s⟩
        else
          ⟨.respondWith (some response),
            [.cachesMatch request, .fetch request, .cachesOpen CACHE_NAME,
             .cachePut CACHE_NAME request response],
            putInCurrent s request response⟩
      | .rejected _ =>
        if request.mode == "navigate" then
          let offline := Request.ofPath location "/offline-page.html"
          ⟨.respondWith (cachesMatch s offline),
            [.cachesMatch request, .fetch request, .cachesMatch offline], s⟩
        else
          ⟨.respondWith none, [.cachesMatch request, .fetch request], s⟩

/-! ## The worker: outbound message queue -/

def DB_NAME : String := "MessageQueue"
def DB_VERSION : Nat := 1
def STORE_NAME : String := "messages"

/-- A queued record, represented by its JSON text. -/
abbrev Message := String

/-- Serialisation `JSON.stringify(message)` of a record kept as JSON text. -/
def JSON.stringify (message : Message) : String := message

/-- The database `MessageQueue`: its object stores, each with its records in
key order (the order in which they were added). -/
structure IDBDatabase where
  objectStores : List (String × List Message)
deriving DecidableEq, Repr

/-- A transaction over one object store of a database. -/
structure IDBTransaction where
  db : IDBDatabase
  scope : String
  mode : String
deriving DecidableEq, Repr

/-- Call `db.transaction(storeName, mode)`: throws `NotFoundError` when the
database has no object store of that name. -/
def IDBDatabase.transaction (db : IDBDatabase) (storeName mode : String) :
    Except String IDBTransaction :=
  if db.objectStores.any (fun ns => ns.1 == storeName) then .ok ⟨db, storeName, mode⟩
  else .error "NotFoundError"

/-- The method call `transaction.<method>(storeName)`.  An `IDBTransaction`
has a method `objectStore`; a property of any other spelling is `undefined`,
and calling it throws a `TypeError`.  The result is the name of the store. -/
def IDBTransaction.call (tx : IDBTransaction) (method storeName : String) :
    Except String String :=
  if method == "objectStore" then
    if storeName == tx.scope then .ok storeName else .error "NotFoundError"
  else .error ("TypeError: transaction." ++ method ++ " is not a function")

/-- Records of an object store, in key order: `store.getAll()`. -/
def IDBDatabase.getAll (db : IDBDatabase) (storeName : String) : List Message :=
  (db.objectStores.lookup storeName).getD []

/-- Effect of a successful `store.clear()`. -/
def IDBDatabase.clear (db : IDBDatabase) (storeName : String) : IDBDatabase :=
  ⟨db.objectStores.map (fun ns => if ns.1 == storeName then (ns.1, []) else ns)⟩

/-- What the platform does during one run of `syncMessages`. -/
structure SyncEnv where
  /-- The `indexedDB.open` of `getQueuedMessages` fires `error`. -/
  openErrorOnRead : Bool
  /-- The `getAll` request fires `error`. -/
  getAllError : Bool
  /-- The `indexedDB.open` of `clearQueuedMessages` fires `error`. -/
  openErrorOnClear : Bool
  /-- The `clear` request fires `error`. -/
  clearError : Bool
  /-- How the fetch of the message at each queue position settles. -/
  fetchResult : Nat → FetchResult

/-- Function `getQueuedMessages`.  An exception thrown inside the `onsuccess`
handler, and an `error` event of `getAll` (no handler is set for it), leave
the promise unsettled. -/
def getQueuedMessages (env : SyncEnv) (db : IDBDatabase) : Settled (List Message) :=
  if env.openErrorOnRead then .resolved []
  else
    match db.transaction STORE_NAME "readonly" with
    | .error _ => .pending
    | .ok transaction =>
      match transaction.call "objectStore" STORE_NAME with
      | .error _ => .pending
      | .ok store => if env.getAllError then .pending else .resolved (db.getAll store)

structure LogEntry where
  level : String
  text : String
  error : String
deriving DecidableEq, Repr

/-- The request issued by `sendMessage`. -/
structure OutboundRequest where
  url : String
  method : String
  headers : List (String × String)
  body : String
deriving DecidableEq, Repr

structure SendOutcome where
  request : OutboundRequest
  /-- The parsed response body, or the error thrown. -/
  result : Except String String
  log : List LogEntry
deriving Repr

/-- The arguments `sendMessage` gives to `fetch` for a message. -/
def messageRequest (message : Message) : OutboundRequest :=
  { url := "/api/messages", method := "POST",
    headers := [("Content-Type", "application/json")], body := JSON.stringify message }

/-- Function `sendMessage`: one `POST`; a transport error, a response that is
not `ok` and a body that does not parse as JSON are each warned about and
rethrown. -/
def sendMessage (net : FetchResult) (message : Message) : SendOutcome :=
  let request := messageRequest message
  let attempt : Except String String :=
    match net with
    | .rejected e => .error e
    | .resolved response =>
      if !response.ok then .error "Failed to send"
      else if response.bodyIsJson then .ok response.body else .error "SyntaxError"
  match attempt with
  | .ok v => ⟨request, .ok v, []⟩
  | .error e => ⟨request, .error e, [⟨"warn", "Message sync failed:", e⟩]⟩

/-- Function `clearQueuedMessages`, with the database it leaves behind.  The
`onsuccess` handler calls `transaction.objectstore(STORE_NAME)`. -/
def clearQueuedMessages (env : SyncEnv) (db : IDBDatabase) : Settled Unit × IDBDatabase :=
  if env.openErrorOnClear then (.resolved (), db)
  else
    match db.transaction STORE_NAME "readwrite" with
    | .error _ => (.pending, db)
    | .ok transaction =>
      match transaction.call "objectstore" STORE_NAME with
      | .error _ => (.pending, db)
      | .ok store =>
        if env.clearError then (.resolved (), db) else (.resolved (), db.clear store)

structure LoopOutcome where
  /-- The error that left the loop, if any. -/
  thrown : Option String
  posts : List OutboundRequest
  log : List LogEntry
deriving DecidableEq, Repr

/-- The loop `for (const message of messages) await sendMessage(message)`,
the message at the head being at queue position `i`. -/
def sendLoop (fetchResult : Nat → FetchResult) : Nat → List Message → LoopOutcome
  | _, [] => ⟨none, [], []⟩
  | i, message :: rest =>
    let sent := sendMessage (fetchResult i) message
    match sent.result with
    | .error e => ⟨some e, [sent.request], sent.log⟩
    | .ok _ =>
      let later := sendLoop fetchResult (i + 1) rest
      ⟨later.thrown, sent.request :: later.posts, sent.log ++ later.log⟩

structure SyncOutcome where
  /-- The promise returned by `syncMessages`. -/
  result : Settled Unit
  db : IDBDatabase
  /-- The `POST`s issued, in order. -/
  posts : List OutboundRequest
  log : List LogEntry
deriving DecidableEq, Repr

/-- Function `syncMessages`. -/
def syncMessages (env : SyncEnv) (db : IDBDatabase) : SyncOutcome :=
  match getQueuedMessages env db with
  | .pending => ⟨.pending, db, [], []⟩
  | .rejected e => ⟨.resolved (), db, [], [⟨"error", "Error syncing messages:", e⟩]⟩
  | .resolved messages =>
    let loop := sendLoop env.fetchResult 0 messages
    match loop.thrown with
    | some e =>
      ⟨.resolved (), db, loop.posts, loop.log ++ [⟨"error", "Error syncing messages:", e⟩]⟩
    | none =>
      match clearQueuedMessages env db with
      | (.pending, db1) => ⟨.pending, db1, loop.posts, loop.log⟩
      | (.rejected e, db1) =>
        ⟨.resolved (), db1, loop.posts, loop.log ++ [⟨"error", "Error syncing messages:", e⟩]⟩
      | (.resolved _, db1) => ⟨.resolved (), db1, loop.posts, loop.log⟩

/-- The `sync` listener: only the tag `sync-messages` starts a flush. -/
def onSync (tag : String) (env : SyncEnv) (db : IDBDatabase) : Option SyncOutcome :=
  if tag == "sync-messages" then some (syncMessages env db) else none

/-! ## Vocabulary of the properties -/

/-- No request of the entries `es` matches the cached item `x`. -/
def noneMatches (es : List CacheEntry) (x : CacheEntry) : Bool :=
  es.all (fun e => !requestMatches e.request x)

/-- The step of the `activate` listener for one cache name. -/
def activateStep (acc : CacheStorage) (cacheName : String) : CacheStorage :=
  if cacheName != CACHE_NAME then cachesDelete acc cacheName else acc

/-- A send succeeds when the endpoint answers with an `ok` (2xx) response
whose body parses as JSON: exactly when `sendMessage` returns. -/
def sendSucceeds (net : FetchResult) : Bool :=
  match net with
  | .rejected _ => false
  | .resolved r => r.ok && r.bodyIsJson

/-- A send refused by the transport or by the endpoint: the fetch rejects or
the response status is outside 200-299. -/
def sendRefused (net : FetchResult) : Bool :=
  match net with
  | .rejected _ => true
  | .resolved r => !r.ok

/-- The warning `sendMessage` logs for an error. -/
def sendWarning (e : String) : LogEntry := ⟨"warn", "Message sync failed:", e⟩

/-- The error `syncMessages` logs in its `catch`. -/
def syncError (e : String) : LogEntry := ⟨"error", "Error syncing messages:", e⟩

/-! ## Sample worlds -/

/-- A `200` answer of the endpoint with a JSON body. -/
def okJson : Response := ⟨200, "basic", [], "null", true⟩

/-- A `500` answer of the endpoint. -/
def serverError : Response := ⟨500, "basic", [], "", false⟩

def queueAB : IDBDatabase := ⟨[("messages", ["A", "B"])]⟩

def queueABC : IDBDatabase := ⟨[("messages", ["A", "B", "C"])]⟩

/-- Every request of IndexedDB succeeds and every send is answered `200`. -/
def allDelivered : SyncEnv := ⟨false, false, false, false, fun _ => .resolved okJson⟩

/-- As `allDelivered`, but the send at position 2 is answered `500`. -/
def thirdRefused : SyncEnv :=
  ⟨false, false, false, false, fun i => if i = 2 then .resolved serverError else .resolved okJson⟩

/-- As `allDelivered`, but the send at position 1 meets a transport error. -/
def secondOffline : SyncEnv :=
  ⟨false, false, false, false,
    fun i => if i = 1 then .rejected "TypeError: Failed to fetch" else .resolved okJson⟩

/-- The worker served from `http://localhost` (default port). -/
def devLocation : URL := ⟨"http", "localhost", none, "/service-worker.js"⟩

/-- A request of a controlled page to another port of the same host. -/
def otherPortRequest : Request :=
  ⟨⟨"http", "localhost", some 8080, "/api/status"⟩, "GET", "cors", []⟩

/-- The answer of the other origin to a CORS request. -/
def corsAnswer : Response := ⟨200, "cors", [], "up", false⟩

/-- The page's request for the script `/app.js` of the worker's origin. -/
def appRequest : Request := ⟨devLocation.resolve "/app.js", "GET", "no-cors", []⟩

def appCurrent : Response := ⟨200, "basic", [], "console.log(2)", false⟩

def appOther : Response := ⟨200, "basic", [], "console.log(1)", false⟩

/-- A storage in which a cache created before `CACHE_NAME` also holds `/app.js`. -/
def twoCaches : CacheStorage :=
  [("drawchat-static", [⟨appRequest, appOther⟩]), (CACHE_NAME, [⟨appRequest, appCurrent⟩])]

/-- A storage holding the current generation alone, still empty. -/
def emptyGeneration : CacheStorage := [(CACHE_NAME, [])]

/-- A same-origin `POST` of the page. -/
def formPost : Request := ⟨devLocation.resolve "/api/messages", "POST", "cors", []⟩

/-- A same-origin `GET` answered by `okJson`. -/
def historyRequest : Request := ⟨devLocation.resolve "/api/history", "GET", "cors", []⟩

/-- A network on which every asset of the manifest is served; the body of
each answer names the requested path. -/
def assetServer (q : Request) : FetchResult :=
  .resolved ⟨200, "basic", [], "content of " ++ q.url.path, false⟩

theorem sendMessage_request (net : FetchResult) (m : Message) :
    (sendMessage net m).request = messageRequest m := by
  unfold sendMessage
  cases net with
  | rejected e => rfl
  | resolved r => by_cases h1 : r.ok <;> by_cases h2 : r.bodyIsJson <;> simp [h1, h2]

theorem sendMessage_ok (net : FetchResult) (m : Message) (h : sendSucceeds net = true) :
    ∃ v, (sendMessage net m).result = .ok v ∧ (sendMessage net m).log = [] := by
  cases net with
  | rejected e => simp [sendSucceeds] at h
  | resolved r =>
    simp only [sendSucceeds, Bool.and_eq_true] at h
    exact ⟨r.body, by simp [sendMessage, h.1, h.2], by simp [sendMessage, h.1, h.2]⟩

theorem sendMessage_error (net : FetchResult) (m : Message) (h : sendSucceeds net = false) :
    ∃ e, (sendMessage net m).result = .error e ∧ (sendMessage net m).log = [sendWarning e] := by
  cases net with
  | rejected e => exact ⟨e, rfl, rfl⟩
  | resolved r =>
    simp only [sendSucceeds, Bool.and_eq_false_iff] at h
    by_cases h1 : r.ok
    · have h2 : r.bodyIsJson = false := by
        rcases h with h | h
        · simp [h1] at h
        · exact h
      exact ⟨"SyntaxError", by simp [sendMessage, h1, h2], by simp [sendMessage, h1, h2, sendWarning]⟩
    · exact ⟨"Failed to send", by simp [sendMessage, h1], by simp [sendMessage, h1, sendWarning]⟩

theorem sendRefused_not_succeeds (net : FetchResult) (h : sendRefused net = true) :
    sendSucceeds net = false := by
  cases net with
  | rejected e => rfl
  | resolved r =>
    simp only [sendRefused, Bool.not_eq_true', Bool.not_eq_eq_eq_not, Bool.not_true] at h
    simp [sendSucceeds, h]

/-- When the send at position `k` is the first that fails, the loop posts the
first `k + 1` messages, throws, and logs the warning of the failed send. -/
theorem sendLoop_first_failure (f : Nat → FetchResult) (ms : List Message) :
    ∀ i k, k < ms.length → (∀ j, j < k → sendSucceeds (f (i + j)) = true) →
      sendSucceeds (f (i + k)) = false →
      ∃ e, sendLoop f i ms = ⟨some e, (ms.take (k + 1)).map messageRequest, [sendWarning e]⟩ := by
  induction ms with
  | nil => intro i k hk; simp at hk
  | cons m rest ih =>
    intro i k hk hprev hfail
    cases k with
    | zero =>
      obtain ⟨e, he, hl⟩ := sendMessage_error (f i) m (by simpa using hfail)
      exact ⟨e, by simp [sendLoop, he, hl, sendMessage_request]⟩
    | succ k =>
      obtain ⟨v, hv, hl⟩ := sendMessage_ok (f i) m (by simpa using hprev 0 (by omega))
      obtain ⟨e, he⟩ := ih (i + 1) k (by simpa using hk)
        (fun j hj => by
          have := hprev (j + 1) (by omega)
          rwa [show i + (j + 1) = i + 1 + j by omega] at this)
        (by rwa [show i + (k + 1) = i + 1 + k by omega] at hfail)
      exact ⟨e, by simp [sendLoop, hv, hl, he, sendMessage_request]⟩

/-- The method call of `clearQueuedMessages` always throws. -/
theorem transaction_objectstore_throws (tx : IDBTransaction) (storeName : String) :
    ∃ e, tx.call "objectstore" storeName = .error e := by
  refine ⟨"TypeError: transaction." ++ "objectstore" ++ " is not a function", ?_⟩
  unfold IDBTransaction.call
  rw [if_neg (by decide)]

/-- No run of `clearQueuedMessages` changes the database, and none rejects. -/
theorem clearQueuedMessages_spec (env : SyncEnv) (db : IDBDatabase) :
    (clearQueuedMessages env db).2 = db ∧
      ((clearQueuedMessages env db).1 = .resolved () ∨ (clearQueuedMessages env db).1 = .pending) := by
  unfold clearQueuedMessages
  by_cases ho : env.openErrorOnClear
  · simp [ho]
  · simp only [ho, Bool.false_eq_true, if_false]
    cases ht : db.transaction STORE_NAME "readwrite" with
    | error e => simp
    | ok tx =>
      obtain ⟨e, he⟩ := transaction_objectstore_throws tx STORE_NAME
      simp [he]

/-- The flush when the loop throws: the error is caught and logged. -/
theorem syncMessages_thrown (env : SyncEnv) (db : IDBDatabase) (ms : List Message) (e : String)
    (hq : getQueuedMessages env db = .resolved ms)
    (ht : (sendLoop env.fetchResult 0 ms).thrown = some e) :
    syncMessages env db =
      ⟨.resolved (), db, (sendLoop env.fetchResult 0 ms).posts,
        (sendLoop env.fetchResult 0 ms).log ++ [syncError e]⟩ := by
  simp [syncMessages, hq, ht, syncError]

/-- The flush when every send returned: it ends as `clearQueuedMessages` does. -/
theorem syncMessages_clean (env : SyncEnv) (db : IDBDatabase) (ms : List Message)
    (hq : getQueuedMessages env db = .resolved ms)
    (ht : (sendLoop env.fetchResult 0 ms).thrown = none) :
    (syncMessages env db).db = (clearQueuedMessages env db).2 ∧
      (syncMessages env db).posts = (sendLoop env.fetchResult 0 ms).posts ∧
      ((clearQueuedMessages env db).1 = .pending → (syncMessages env db).result = .pending) ∧
      ((clearQueuedMessages env db).1 ≠ .pending → (syncMessages env db).result = .resolved ()) := by
  rcases hcl : clearQueuedMessages env db with ⟨r, db1⟩
  cases r <;> simp [syncMessages, hq, ht, hcl]

/-- No run of `syncMessages` changes the database. -/
theorem syncMessages_db (env : SyncEnv) (db : IDBDatabase) : (syncMessages env db).db = db := by
  cases hq : getQueuedMessages env db with
  | pending => simp [syncMessages, hq]
  | rejected e => simp [syncMessages, hq]
  | resolved ms =>
    cases ht : (sendLoop env.fetchResult 0 ms).thrown with
    | some e => rw [syncMessages_thrown env db ms e hq ht]
    | none =>
      rw [(syncMessages_clean env db ms hq ht).1]
      exact (clearQueuedMessages_spec env db).1

/-- No run of `syncMessages` rejects. -/
theorem syncMessages_result (env : SyncEnv) (db : IDBDatabase) :
    (syncMessages env db).result = .resolved () ∨ (syncMessages env db).result = .pending := by
  cases hq : getQueuedMessages env db with
  | pending => simp [syncMessages, hq]
  | rejected e => simp [syncMessages, hq]
  | resolved ms =>
    cases ht : (sendLoop env.fetchResult 0 ms).thrown with
    | some e => rw [syncMessages_thrown env db ms e hq ht]; simp
    | none =>
      obtain ⟨_, _, hp, hr⟩ := syncMessages_clean env db ms hq ht
      by_cases h : (clearQueuedMessages env db).1 = .pending
      · exact Or.inr (hp h)
      · exact Or.inl (hr h)

/-- C1 (full-batch clear), the code at a queue whose sends all succeed: with
the store holding `A, B` and both sends answered `200`, `syncMessages` posts
both messages, then never settles, and the store still holds `A, B`. -/
theorem syncMessages_all_delivered_store_kept :
    (syncMessages allDelivered queueAB).posts = [messageRequest "A", messageRequest "B"] ∧
      (syncMessages allDelivered queueAB).result = .pending ∧
      getQueuedMessages allDelivered (syncMessages allDelivered queueAB).db =
        .resolved ["A", "B"] := by
  decide

/-- C2 (queue atomicity): when the send at position `k` is refused (transport
error or non-2xx status) after every earlier send succeeded, `syncMessages`
returns, the first `k + 1` messages were posted, and the store holds the same
messages in the same order as before. -/
theorem syncMessages_failure_keeps_queue (env : SyncEnv) (db : IDBDatabase)
    (messages : List Message) (k : Nat)
    (hq : getQueuedMessages env db = .resolved messages) (hk : k < messages.length)
    (hprev : ∀ i, i < k → sendSucceeds (env.fetchResult i) = true)
    (hfail : sendRefused (env.fetchResult k) = true) :
    (syncMessages env db).result = .resolved () ∧
      (syncMessages env db).posts = (messages.take (k + 1)).map messageRequest ∧
      (syncMessages env db).db = db ∧
      getQueuedMessages env (syncMessages env db).db = .resolved messages := by
  obtain ⟨e, he⟩ := sendLoop_first_failure env.fetchResult messages 0 k hk
    (by simpa using hprev) (by simpa using sendRefused_not_succeeds _ hfail)
  have hs := syncMessages_thrown env db messages e hq (by rw [he])
  rw [hs, he]
  exact ⟨rfl, rfl, rfl, hq⟩

theorem syncMessages_failure_keeps_queue_witness :
    (syncMessages thirdRefused queueABC).result = .resolved () ∧
      (syncMessages thirdRefused queueABC).posts =
        (["A", "B", "C"].take (2 + 1)).map messageRequest ∧
      (syncMessages thirdRefused queueABC).db = queueABC ∧
      getQueuedMessages thirdRefused (syncMessages thirdRefused queueABC).db =
        .resolved ["A", "B", "C"] :=
  syncMessages_failure_keeps_queue thirdRefused queueABC ["A", "B", "C"] 2 (by decide) (by decide)
    (by decide) (by decide)

/-- C9 (flush never throws): the promise of `syncMessages` is never rejected,
whatever the store holds and however the sends end; when a send fails the
error is warned about by `sendMessage`, caught and logged by `syncMessages`,
and the promise resolves. -/
theorem syncMessages_never_rejects (env : SyncEnv) (db : IDBDatabase) :
    (∀ e, (syncMessages env db).result ≠ .rejected e) ∧
      (∀ messages k, getQueuedMessages env db = .resolved messages → k < messages.length →
        (∀ i, i < k → sendSucceeds (env.fetchResult i) = true) →
        sendSucceeds (env.fetchResult k) = false →
        (syncMessages env db).result = .resolved () ∧
          ∃ e, (syncMessages env db).log = [sendWarning e, syncError e]) := by
  constructor
  · intro e he
    rcases syncMessages_result env db with h | h <;> rw [h] at he <;> cases he
  · intro messages k hq hk hprev hfail
    obtain ⟨e, he⟩ := sendLoop_first_failure env.fetchResult messages 0 k hk
      (by simpa using hprev) (by simpa using hfail)
    rw [syncMessages_thrown env db messages e hq (by rw [he]), he]
    exact ⟨rfl, e, rfl⟩

theorem syncMessages_never_rejects_witness :
    (syncMessages secondOffline queueABC).result = .resolved () ∧
      ∃ e, (syncMessages secondOffline queueABC).log = [sendWarning e, syncError e] :=
  (syncMessages_never_rejects secondOffline queueABC).2 ["A", "B", "C"] 1 (by decide) (by decide)
    (by decide) (by decide)

/-! ## Lemmas on the cache storage -/

theorem isPrefixOf_append_self (a b : List Char) : a.isPrefixOf (a ++ b) = true := by
  induction a with
  | nil => simp [List.isPrefixOf]
  | cons x xs ih => simp [List.isPrefixOf, ih]

/-- The URL of a same-origin request starts with the worker's origin. -/
theorem startsWith_of_same_origin (u location : URL) (h : u.origin = location.origin) :
    startsWith u.href location.origin = true := by
  unfold startsWith URL.href
  rw [← h, String.data_append]
  exact isPrefixOf_append_self _ _

theorem cacheMatch_eq_none (c : Cache) (q : Request) :
    cacheMatch c q = none ↔ ∀ e ∈ c, requestMatches q e = false := by
  simp [cacheMatch, List.find?_eq_none]

/-- A miss of `caches.match` is a miss of every cache of the storage. -/
theorem cachesMatch_eq_none (s : CacheStorage) (q : Request) :
    cachesMatch s q = none ↔ ∀ nc ∈ s, cacheMatch nc.2 q = none := by
  induction s with
  | nil => simp [cachesMatch]
  | cons nc rest ih =>
    obtain ⟨n, c⟩ := nc
    cases hc : cacheMatch c q with
    | none => simp [cachesMatch, hc, ih]
    | some r => simp [cachesMatch, hc]

theorem cachesGet_nil (name : String) : cachesGet [] name = none := rfl

theorem cachesGet_cons (n : String) (c : Cache) (rest : CacheStorage) (name : String) :
    cachesGet ((n, c) :: rest) name = if name = n then some c else cachesGet rest name := by
  by_cases h : name = n
  · subst h; simp [cachesGet, List.lookup]
  · have hb : (name == n) = false := by simpa using h
    simp [cachesGet, List.lookup, hb, h]

theorem cachesSet_cons (n : String) (c1 : Cache) (rest : CacheStorage) (name : String)
    (c : Cache) :
    cachesSet ((n, c1) :: rest) name c =
      (if n = name then (n, c) else (n, c1)) :: cachesSet rest name c := by
  by_cases h : n = name <;> simp [cachesSet, h]

theorem cachesGet_append_ne (s : CacheStorage) (name other : String) (c : Cache)
    (h : other ≠ name) : cachesGet (s ++ [(name, c)]) other = cachesGet s other := by
  induction s with
  | nil => simp [cachesGet_cons, cachesGet_nil, h]
  | cons nc rest ih =>
    obtain ⟨n, c1⟩ := nc
    simp only [List.cons_append, cachesGet_cons, ih]

theorem cachesGet_append_new (s : CacheStorage) (name : String) (c : Cache)
    (h : s.any (fun nc => nc.1 == name) = false) :
    cachesGet s name = none ∧ cachesGet (s ++ [(name, c)]) name = some c := by
  induction s with
  | nil => simp [cachesGet_cons, cachesGet_nil]
  | cons nc rest ih =>
    obtain ⟨n, c1⟩ := nc
    simp only [List.any_cons, Bool.or_eq_false_iff, beq_eq_false_iff_ne, ne_eq] at h
    have hn : ¬ name = n := fun h1 => h.1 h1.symm
    simp only [List.cons_append, cachesGet_cons, hn, if_false]
    exact ih h.2

theorem cachesGet_mem (s : CacheStorage) (name : String) (c : Cache)
    (h : cachesGet s name = some c) : (name, c) ∈ s := by
  induction s with
  | nil => simp [cachesGet_nil] at h
  | cons nc rest ih =>
    obtain ⟨n, c1⟩ := nc
    rw [cachesGet_cons] at h
    by_cases hn : name = n
    · subst hn
      simp only [if_true, Option.some.injEq] at h
      simp [h]
    · simp only [hn, if_false] at h
      exact List.mem_cons_of_mem _ (ih h)

/-- A miss of `caches.match` is a miss of the cache called `name`. -/
theorem cacheOf_miss (s : CacheStorage) (name : String) (q : Request)
    (h : cachesMatch s q = none) : cacheMatch (cacheOf s name) q = none := by
  unfold cacheOf
  cases hg : cachesGet s name with
  | none => simp [cacheMatch]
  | some c => exact (cachesMatch_eq_none s q).1 h _ (cachesGet_mem s name c hg)

/-- When only the cache called `name` may hold a match, `caches.match` is the
lookup in that cache. -/
theorem cachesMatch_of_only (s : CacheStorage) (name : String) (q : Request)
    (h : ∀ nc ∈ s, nc.1 ≠ name → cacheMatch nc.2 q = none) (r : Response)
    (hr : cacheMatch (cacheOf s name) q = some r) : cachesMatch s q = some r := by
  induction s with
  | nil => simp [cacheOf, cachesGet_nil, cacheMatch] at hr
  | cons nc rest ih =>
    obtain ⟨n, c⟩ := nc
    unfold cacheOf at hr ih
    rw [cachesGet_cons] at hr
    by_cases hn : name = n
    · subst hn
      simp only [if_true, Option.getD_some] at hr
      simp [cachesMatch, hr]
    · simp only [hn, if_false] at hr
      have hc : cacheMatch c q = none := h (n, c) (by simp) (fun h1 => hn h1.symm)
      simp only [cachesMatch, hc]
      exact ih (fun nc hnc => h nc (List.mem_cons_of_mem _ hnc)) hr

theorem cachesGet_open_ne (s : CacheStorage) (name other : String) (h : other ≠ name) :
    cachesGet (cachesOpen s name) other = cachesGet s other := by
  unfold cachesOpen
  split
  · rfl
  · exact cachesGet_append_ne s name other [] h

theorem cacheOf_open (s : CacheStorage) (name : String) :
    cacheOf (cachesOpen s name) name = cacheOf s name := by
  unfold cachesOpen cacheOf
  split
  · rfl
  · rename_i h
    obtain ⟨h1, h2⟩ := cachesGet_append_new s name [] (Bool.eq_false_iff.mpr h)
    rw [h1, h2]; rfl

theorem cachesOpen_any (s : CacheStorage) (name : String) :
    (cachesOpen s name).any (fun nc => nc.1 == name) = true := by
  unfold cachesOpen
  split
  · assumption
  · simp

theorem cachesGet_set_ne (s : CacheStorage) (name other : String) (c : Cache)
    (h : other ≠ name) : cachesGet (cachesSet s name c) other = cachesGet s other := by
  induction s with
  | nil => rfl
  | cons nc rest ih =>
    obtain ⟨n, c1⟩ := nc
    rw [cachesSet_cons]
    by_cases hn : n = name
    · subst hn
      simp only [if_true, cachesGet_cons, h, if_false, ih]
    · simp only [hn, if_false, cachesGet_cons, ih]

theorem cacheOf_set (s : CacheStorage) (name : String) (c : Cache)
    (h : s.any (fun nc => nc.1 == name) = true) : cacheOf (cachesSet s name c) name = c := by
  induction s with
  | nil => simp at h
  | cons nc rest ih =>
    obtain ⟨n, c1⟩ := nc
    unfold cacheOf at ih ⊢
    rw [cachesSet_cons]
    by_cases hn : n = name
    · subst hn
      simp [cachesGet_cons]
    · have hk : ¬ name = n := fun h1 => hn h1.symm
      simp only [hn, if_false, cachesGet_cons, hk]
      exact ih (by simpa [hn] using h)

/-- The detached write after a miss: the pair is appended to the current
generation when `put` accepts it, and no other cache changes. -/
theorem putInCurrent_spec (s : CacheStorage) (q : Request) (r : Response)
    (hmiss : cachesMatch s q = none) :
    cacheOf (putInCurrent s q r) CACHE_NAME =
        cacheOf s CACHE_NAME ++ (if putAccepts q r = true then [⟨q, r⟩] else []) ∧
      ∀ name, name ≠ CACHE_NAME → cachesGet (putInCurrent s q r) name = cachesGet s name := by
  have hfilter : (cacheOf s CACHE_NAME).filter (fun e => !requestMatches q e) =
      cacheOf s CACHE_NAME := by
    rw [List.filter_eq_self]
    intro e he
    simp [(cacheMatch_eq_none _ q).1 (cacheOf_miss s CACHE_NAME q hmiss) e he]
  unfold putInCurrent cachePut
  by_cases hp : putAccepts q r = true
  · simp only [hp, if_true]
    refine ⟨?_, fun name hne => ?_⟩
    · rw [cacheOf_set _ _ _ (cachesOpen_any s CACHE_NAME), cacheOf_open, cacheWrite, hfilter]
    · rw [cachesGet_set_ne _ _ _ _ hne, cachesGet_open_ne _ _ _ hne]
  · have hp1 : putAccepts q r = false := Bool.eq_false_iff.mpr hp
    simp only [hp1, Bool.false_eq_true, if_false, List.append_nil]
    exact ⟨cacheOf_open s CACHE_NAME, fun name hne => cachesGet_open_ne _ _ _ hne⟩

/-! ## Lemmas on activation -/

theorem activate_fold (keys : List String) :
    ∀ acc : CacheStorage, keys.foldl activateStep acc =
      acc.filter (fun nc => nc.1 == CACHE_NAME || decide (nc.1 ∉ keys)) := by
  induction keys with
  | nil => intro acc; simp
  | cons k ks ih =>
    intro acc
    rw [List.foldl_cons, ih]
    unfold activateStep cachesDelete
    by_cases hk : k = CACHE_NAME
    · subst hk
      simp only [bne_self_eq_false, Bool.false_eq_true, if_false]
      apply List.filter_congr
      intro nc _
      by_cases h : nc.1 = CACHE_NAME <;> simp [h]
    · have hb : (k != CACHE_NAME) = true := by simpa using hk
      simp only [hb, if_true, List.filter_filter]
      apply List.filter_congr
      intro nc _
      by_cases h : nc.1 = CACHE_NAME
      · have : ¬ CACHE_NAME = k := fun h1 => hk h1.symm
        simp [h, this]
      · by_cases h2 : nc.1 = k <;> simp [h, h2, hk]

/-- Activation keeps exactly the caches called `CACHE_NAME`. -/
theorem onActivate_eq_filter (s : CacheStorage) :
    onActivate s = s.filter (fun nc => nc.1 == CACHE_NAME) := by
  have h : onActivate s = (cachesKeys s).foldl activateStep s := rfl
  rw [h, activate_fold]
  apply List.filter_congr
  intro nc hnc
  have : nc.1 ∈ cachesKeys s := List.mem_map_of_mem _ hnc
  simp [this]

theorem cachesGet_filter_current (s : CacheStorage) (name : String) :
    cachesGet (s.filter (fun nc => nc.1 == CACHE_NAME)) name =
      if name = CACHE_NAME then cachesGet s CACHE_NAME else none := by
  induction s with
  | nil => simp [cachesGet_nil]
  | cons nc rest ih =>
    obtain ⟨n, c⟩ := nc
    by_cases hn : n = CACHE_NAME
    · subst hn
      simp only [List.filter_cons, beq_self_eq_true, if_true, cachesGet_cons, ih]
      by_cases h : name = CACHE_NAME <;> simp [h]
    · have hb : (n == CACHE_NAME) = false := by simpa using hn
      have hc : ¬ CACHE_NAME = n := fun h1 => hn h1.symm
      simp only [List.filter_cons, hb, Bool.false_eq_true, if_false, cachesGet_cons, ih, hc]

theorem cachesMatch_some_mem (s : CacheStorage) (q : Request) (r : Response)
    (h : cachesMatch s q = some r) : ∃ nc ∈ s, cacheMatch nc.2 q = some r := by
  induction s with
  | nil => simp [cachesMatch] at h
  | cons nc rest ih =>
    obtain ⟨n, c⟩ := nc
    cases hc : cacheMatch c q with
    | some r1 =>
      simp only [cachesMatch, hc, Option.some.injEq] at h
      exact ⟨(n, c), by simp, by rw [hc, h]⟩
    | none =>
      simp only [cachesMatch, hc] at h
      obtain ⟨nc, hnc, hr⟩ := ih h
      exact ⟨nc, List.mem_cons_of_mem _ hnc, hr⟩

/-! ## Response cache manager: the fetch listener -/

/-- C4 (no cross-origin caching), the code at a request to another port of
the worker's host: with the worker at `http://localhost`, the URL
`http://localhost:8080/api/status` starts with the worker's origin string, so
the listener intercepts the request, looks it up in the caches and fetches it
itself, although the two origins differ. -/
theorem onFetch_other_port_intercepted :
    otherPortRequest.url.origin ≠ devLocation.origin ∧
      (onFetch devLocation emptyGeneration (.resolved corsAnswer) otherPortRequest).reply =
        .respondWith (some corsAnswer) ∧
      (onFetch devLocation emptyGeneration (.resolved corsAnswer) otherPortRequest).effects =
        [.cachesMatch otherPortRequest, .fetch otherPortRequest] := by
  decide

/-- C5 as stated fails: the current generation holds `/app.js`, yet the
listener answers with the entry of a cache created before it. -/
theorem onFetch_current_entry_shadowed :
    appRequest.url.origin = devLocation.origin ∧
      cacheMatch (cacheOf twoCaches CACHE_NAME) appRequest = some appCurrent ∧
      (onFetch devLocation twoCaches (.rejected "offline") appRequest).reply =
        .respondWith (some appOther) ∧
      appOther ≠ appCurrent := by
  decide

/-- C5 (cache-first), amended: for a same-origin request for which the current
generation holds an entry, the listener answers with a stored entry, the first
match of `caches.match` over all caches in creation order, issues no network
fetch and writes nothing; the entry served is that of the current generation
whenever no cache of another name holds a match. -/
theorem onFetch_cache_first (location : URL) (s : CacheStorage) (net : FetchResult)
    (request : Request) (r : Response)
    (horigin : request.url.origin = location.origin)
    (hcur : cacheMatch (cacheOf s CACHE_NAME) request = some r) :
    (∃ served, cachesMatch s request = some served ∧
        (onFetch location s net request).reply = .respondWith (some served)) ∧
      (∀ q, Effect.fetch q ∉ (onFetch location s net request).effects) ∧
      (onFetch location s net request).caches = s ∧
      ((∀ nc ∈ s, nc.1 ≠ CACHE_NAME → cacheMatch nc.2 request = none) →
        (onFetch location s net request).reply = .respondWith (some r)) := by
  have hstart := startsWith_of_same_origin request.url location horigin
  cases hm : cachesMatch s request with
  | none =>
    rw [cacheOf_miss s CACHE_NAME request hm] at hcur
    cases hcur
  | some served =>
    have hout : onFetch location s net request =
        ⟨.respondWith (some served), [.cachesMatch request], s⟩ := by
      simp [onFetch, hstart, hm]
    rw [hout]
    refine ⟨⟨served, rfl, rfl⟩, by simp, rfl, fun honly => ?_⟩
    have := cachesMatch_of_only s CACHE_NAME request honly r hcur
    rw [hm] at this
    cases this
    rfl

/-- C5 at the storage `twoCaches`: an entry is served without a fetch. -/
theorem onFetch_cache_first_witness :
    (∃ served, cachesMatch twoCaches appRequest = some served ∧
        (onFetch devLocation twoCaches (.rejected "offline") appRequest).reply =
          .respondWith (some served)) ∧
      (∀ q, Effect.fetch q ∉
        (onFetch devLocation twoCaches (.rejected "offline") appRequest).effects) :=
  ⟨(onFetch_cache_first devLocation twoCaches (.rejected "offline") appRequest appCurrent
      (by decide) (by decide)).1,
   (onFetch_cache_first devLocation twoCaches (.rejected "offline") appRequest appCurrent
      (by decide) (by decide)).2.1⟩

/-- C6 as stated fails: a same-origin `POST` that misses the cache and is
answered `200` with type `basic` is returned, and no copy is written. -/
theorem onFetch_post_not_persisted :
    formPost.url.origin = devLocation.origin ∧
      cachesMatch emptyGeneration formPost = none ∧
      okJson.status = 200 ∧ okJson.type = "basic" ∧
      (onFetch devLocation emptyGeneration (.resolved okJson) formPost).reply =
        .respondWith (some okJson) ∧
      (onFetch devLocation emptyGeneration (.resolved okJson) formPost).caches =
        emptyGeneration := by
  decide

/-- C6 (selective caching), amended: a same-origin request that misses the
cache and whose fetch resolves is answered with the network response
unchanged; the pair is appended to the current generation exactly when the
status is 200, the type is `basic` and `cache.put` accepts the pair (an
http(s) `GET` request, no `Vary: *`); no other cache changes. -/
theorem onFetch_network_response (location : URL) (s : CacheStorage) (request : Request)
    (response : Response)
    (horigin : request.url.origin = location.origin)
    (hmiss : cachesMatch s request = none) :
    (onFetch location s (.resolved response) request).reply = .respondWith (some response) ∧
      cacheOf (onFetch location s (.resolved response) request).caches CACHE_NAME =
        cacheOf s CACHE_NAME ++
          (if response.status = 200 ∧ response.type = "basic" ∧
              putAccepts request response = true
            then [⟨request, response⟩] else []) ∧
      (∀ name, name ≠ CACHE_NAME →
        cachesGet (onFetch location s (.resolved response) request).caches name =
          cachesGet s name) := by
  have hstart := startsWith_of_same_origin request.url location horigin
  by_cases hc : response.status = 200 ∧ response.type = "basic"
  · have hout : onFetch location s (.resolved response) request =
        ⟨.respondWith (some response),
          [.cachesMatch request, .fetch request, .cachesOpen CACHE_NAME,
           .cachePut CACHE_NAME request response],
          putInCurrent s request response⟩ := by
      simp [onFetch, hstart, hmiss, hc.1, hc.2]
    obtain ⟨h1, h2⟩ := putInCurrent_spec s request response hmiss
    rw [hout]
    refine ⟨rfl, ?_, h2⟩
    simp only [h1, hc.1, hc.2, true_and]
  · have hout : onFetch location s (.resolved response) request =
        ⟨.respondWith (some response), [.cachesMatch request, .fetch request], s⟩ := by
      have : (response.status != 200 || response.type != "basic") = true := by
        by_cases h1 : response.status = 200
        · have h2 : response.type ≠ "basic" := fun h2 => hc ⟨h1, h2⟩
          simp [h2]
        · simp [h1]
      simp [onFetch, hstart, hmiss, this]
    rw [hout]
    refine ⟨rfl, ?_, fun _ _ => rfl⟩
    have : ¬ (response.status = 200 ∧ response.type = "basic" ∧
        putAccepts request response = true) := fun h => hc ⟨h.1, h.2.1⟩
    simp [this]

/-- C6 at a same-origin `GET` answered `200`, `basic`: returned and stored. -/
theorem onFetch_network_response_witness :
    (onFetch devLocation emptyGeneration (.resolved okJson) historyRequest).reply =
        .respondWith (some okJson) ∧
      cacheOf (onFetch devLocation emptyGeneration (.resolved okJson) historyRequest).caches
          CACHE_NAME =
        cacheOf emptyGeneration CACHE_NAME ++
          (if okJson.status = 200 ∧ okJson.type = "basic" ∧
              putAccepts historyRequest okJson = true
            then [⟨historyRequest, okJson⟩] else []) :=
  ⟨(onFetch_network_response devLocation emptyGeneration historyRequest okJson (by decide)
      (by decide)).1,
   (onFetch_network_response devLocation emptyGeneration historyRequest okJson (by decide)
      (by decide)).2.1⟩

theorem requestMatches_self (q : Request) (r : Response) (hm : q.method = "GET")
    (hv : r.vary.contains "*" = false) : requestMatches q ⟨q, r⟩ = true := by
  have hstar : ∀ f ∈ r.vary, f ≠ "*" := by
    intro f hf h
    subst h
    have : r.vary.contains "*" = true := by simpa using hf
    rw [hv] at this
    cases this
  simp only [requestMatches, hm, beq_self_eq_true, Bool.true_and, List.all_eq_true,
    Bool.and_eq_true, bne_iff_ne, ne_eq, and_true]
  exact fun f hf => hstar f hf

theorem requestMatches_of_url_ne (q : Request) (e : CacheEntry) (h : q.url ≠ e.request.url) :
    requestMatches q e = false := by
  simp [requestMatches, h]

theorem addAllAccepts_vary (r : Response) (h : addAllAccepts r = true) :
    r.vary.contains "*" = false := by
  simp only [addAllAccepts, Bool.and_eq_true, Bool.not_eq_true'] at h
  exact h.2

/-- When every fetch resolves with an acceptable response, the fetch phase
yields one entry per request, in order. -/
theorem addAllFetch_ok (net : Request → FetchResult) (qs : List Request)
    (h : ∀ q ∈ qs, ∃ r, net q = .resolved r ∧ addAllAccepts r = true) :
    ∃ es, addAllFetch net qs = .ok es ∧ es.map (·.request) = qs ∧
      ∀ e ∈ es, addAllAccepts e.response = true := by
  induction qs with
  | nil => exact ⟨[], rfl, rfl, by simp⟩
  | cons q rest ih =>
    obtain ⟨r, hr, ha⟩ := h q (by simp)
    obtain ⟨es, hes, hmap, hacc⟩ := ih (fun q1 hq1 => h q1 (List.mem_cons_of_mem _ hq1))
    refine ⟨⟨q, r⟩ :: es, by simp [addAllFetch, hr, ha, hes], by simp [hmap], ?_⟩
    intro e he
    rcases List.mem_cons.1 he with h1 | h1
    · subst h1; exact ha
    · exact hacc e h1

/-- A batch of entries with pairwise different URLs, none of them the URL of
an item added before, succeeds: it removes what the requests match and
appends the entries. -/
theorem addAllBatch_ok (es : List CacheEntry) :
    ∀ (c : Cache) (added : List CacheEntry),
      (es.map (fun e => e.request.url)).Nodup →
      (∀ a ∈ added, ∀ e ∈ es, e.request.url ≠ a.request.url) →
      addAllBatch c added es = .ok (c.filter (noneMatches es) ++ es) := by
  induction es with
  | nil =>
    intro c added _ _
    have : c.filter (noneMatches []) = c := by
      rw [List.filter_eq_self]; intro x _; rfl
    simp [addAllBatch, this]
  | cons e rest ih =>
    intro c added hnodup hadded
    rw [List.map_cons, List.nodup_cons] at hnodup
    have hany : added.any (requestMatches e.request) = false := by
      rw [List.any_eq_false]
      intro a ha
      simp [requestMatches_of_url_ne e.request a (hadded a ha e (by simp))]
    have hrest : ∀ e1 ∈ rest, e1.request.url ≠ e.request.url := by
      intro e1 he1 h
      exact hnodup.1 (h ▸ List.mem_map_of_mem (fun e => e.request.url) he1)
    have hkeep : noneMatches rest e = true := by
      simp only [noneMatches, List.all_eq_true, Bool.not_eq_true']
      exact fun e1 he1 => requestMatches_of_url_ne _ _ (hrest e1 he1)
    simp only [addAllBatch, hany, Bool.false_eq_true, if_false]
    rw [ih _ _ hnodup.2 (by
      intro a ha e1 he1
      rcases List.mem_append.1 ha with h1 | h1
      · exact hadded a h1 e1 (List.mem_cons_of_mem _ he1)
      · rw [List.mem_singleton] at h1
        subst h1
        exact hrest e1 he1)]
    simp only [cacheWrite, List.filter_append, List.filter_filter, List.filter_cons,
      List.filter_nil, hkeep, if_true, List.append_assoc, List.singleton_append]
    congr 2
    apply List.filter_congr
    intro x _
    simp [noneMatches, Bool.and_comm]

/-- Entries that match their own request are all removed by `noneMatches`. -/
theorem filter_noneMatches_self (es : List CacheEntry)
    (hself : ∀ e ∈ es, requestMatches e.request e = true) :
    es.filter (noneMatches es) = [] := by
  rw [List.filter_eq_nil_iff]
  intro e he
  simp only [noneMatches, List.all_eq_true, Bool.not_eq_true', not_forall]
  exact ⟨e, he, by simp [hself e he]⟩

/-- Among entries with pairwise different URLs that match their own request,
the request of each entry matches exactly one entry. -/
theorem filter_matches_length (es : List CacheEntry) :
    (es.map (fun e => e.request.url)).Nodup →
    (∀ e ∈ es, requestMatches e.request e = true) →
    ∀ e ∈ es, (es.filter (requestMatches e.request)).length = 1 := by
  induction es with
  | nil => intro _ _ e he; simp at he
  | cons a rest ih =>
    intro hnodup hself e he
    rw [List.map_cons, List.nodup_cons] at hnodup
    have hrest : ∀ e1 ∈ rest, e1.request.url ≠ a.request.url := by
      intro e1 he1 h
      exact hnodup.1 (h ▸ List.mem_map_of_mem (fun e => e.request.url) he1)
    rcases List.mem_cons.1 he with h1 | h1
    · subst h1
      have hnone : rest.filter (requestMatches e.request) = [] := by
        rw [List.filter_eq_nil_iff]
        intro e1 he1
        simp [requestMatches_of_url_ne e.request e1 (fun h => hrest e1 he1 h.symm)]
      simp [List.filter_cons, hself e (by simp), hnone]
    · have hne : requestMatches e.request a = false :=
        requestMatches_of_url_ne _ _ (hrest e h1)
      simp only [List.filter_cons, hne, Bool.false_eq_true, if_false]
      exact ih hnodup.2 (fun e1 he1 => hself e1 (List.mem_cons_of_mem _ he1)) e h1

theorem cachesSet_any (s : CacheStorage) (name : String) (c : Cache) :
    (cachesSet s name c).any (fun nc => nc.1 == name) = s.any (fun nc => nc.1 == name) := by
  induction s with
  | nil => rfl
  | cons nc rest ih =>
    obtain ⟨n, c1⟩ := nc
    rw [cachesSet_cons]
    by_cases hn : n = name <;> simp [hn, ih]

theorem cachesSet_idem (s : CacheStorage) (name : String) (c : Cache) :
    cachesSet (cachesSet s name c) name c = cachesSet s name c := by
  induction s with
  | nil => rfl
  | cons nc rest ih =>
    obtain ⟨n, c1⟩ := nc
    rw [cachesSet_cons]
    by_cases hn : n = name
    · simp only [hn, if_true, cachesSet_cons, ih]
    · simp only [hn, if_false, cachesSet_cons, ih]

theorem cachesOpen_of_any (s : CacheStorage) (name : String)
    (h : s.any (fun nc => nc.1 == name) = true) : cachesOpen s name = s := by
  simp [cachesOpen, h]

/-- The requests of the manifest have pairwise different URLs. -/
theorem manifest_urls_nodup (location : URL) :
    ((ASSETS_TO_CACHE.map (Request.ofPath location)).map (fun q => q.url)).Nodup := by
  rw [List.map_map]
  apply List.Nodup.map
  · intro p1 p2 h
    simp only [Function.comp, Request.ofPath, URL.resolve, URL.mk.injEq] at h
    exact h.2.2.2
  · decide

/-- A successful install, made explicit: the entries `es` fetched for the
manifest replace what their requests match in the current generation. -/
theorem onInstall_ok (location : URL) (net : Request → FetchResult)
    (hscheme : location.scheme = "http" ∨ location.scheme = "https")
    (hnet : ∀ p ∈ ASSETS_TO_CACHE,
      ∃ r, net (Request.ofPath location p) = .resolved r ∧ addAllAccepts r = true) :
    ∃ es : List CacheEntry,
      es.map (·.request) = ASSETS_TO_CACHE.map (Request.ofPath location) ∧
      (es.map (fun e => e.request.url)).Nodup ∧
      (∀ e ∈ es, requestMatches e.request e = true) ∧
      ∀ s, onInstall location net s =
        ⟨.resolved (), true,
          cachesSet (cachesOpen s CACHE_NAME) CACHE_NAME
            ((cacheOf s CACHE_NAME).filter (noneMatches es) ++ es)⟩ := by
  obtain ⟨es, hfetch, hmap, hacc⟩ :=
    addAllFetch_ok net (ASSETS_TO_CACHE.map (Request.ofPath location)) (by
      intro q hq
      obtain ⟨p, hp, rfl⟩ := List.mem_map.1 hq
      exact hnet p hp)
  have hnodup : (es.map (fun e => e.request.url)).Nodup := by
    have := manifest_urls_nodup location
    rw [← hmap, List.map_map] at this
    exact this
  have hself : ∀ e ∈ es, requestMatches e.request e = true := by
    intro e he
    have hq : e.request ∈ ASSETS_TO_CACHE.map (Request.ofPath location) := by
      rw [← hmap]; exact List.mem_map_of_mem (·.request) he
    obtain ⟨p, _, hp⟩ := List.mem_map.1 hq
    have hm : e.request.method = "GET" := by rw [← hp]; rfl
    have := requestMatches_self e.request e.response hm (addAllAccepts_vary _ (hacc e he))
    simpa using this
  have hall : (ASSETS_TO_CACHE.map (Request.ofPath location)).all
      (fun q => q.url.scheme == "http" || q.url.scheme == "https") = true := by
    rw [List.all_eq_true]
    intro q hq
    obtain ⟨p, _, rfl⟩ := List.mem_map.1 hq
    rcases hscheme with h | h <;> simp [Request.ofPath, URL.resolve, h]
  refine ⟨es, hmap, hnodup, hself, fun s => ?_⟩
  have hadd : ∀ c, cacheAddAll location net c ASSETS_TO_CACHE =
      .ok (c.filter (noneMatches es) ++ es) := by
    intro c
    unfold cacheAddAll
    simp only [hall, if_true, hfetch]
    exact addAllBatch_ok es c [] hnodup (by simp)
  simp only [onInstall, hadd, cacheOf_open]

/-! ## Response cache manager: activation -/

/-- C7 (generation isolation): activation deletes every cache whose name is
not `CACHE_NAME` and keeps the cache called `CACHE_NAME` as it is; afterwards
every response `caches.match` returns comes from the generation `CACHE_NAME`. -/
theorem onActivate_isolates_generation (s : CacheStorage) :
    onActivate s = s.filter (fun nc => nc.1 == CACHE_NAME) ∧
      (∀ name, name ≠ CACHE_NAME → cachesGet (onActivate s) name = none) ∧
      cachesGet (onActivate s) CACHE_NAME = cachesGet s CACHE_NAME ∧
      (∀ q r, cachesMatch (onActivate s) q = some r →
        ∃ c, (CACHE_NAME, c) ∈ s ∧ cacheMatch c q = some r) := by
  rw [onActivate_eq_filter]
  refine ⟨rfl, fun name hne => ?_, ?_, fun q r h => ?_⟩
  · rw [cachesGet_filter_current, if_neg hne]
  · rw [cachesGet_filter_current, if_pos rfl]
  · obtain ⟨nc, hnc, hr⟩ := cachesMatch_some_mem _ q r h
    obtain ⟨n, c⟩ := nc
    rw [List.mem_filter] at hnc
    have hn : n = CACHE_NAME := by simpa using hnc.2
    subst hn
    exact ⟨c, hnc.1, hr⟩

/-- C7 at the storage `twoCaches`: the cache `drawchat-static` is gone and the
lookup of `/app.js` now returns the entry of the current generation. -/
theorem onActivate_isolates_generation_witness :
    cachesGet (onActivate twoCaches) "drawchat-static" = none ∧
      cachesGet (onActivate twoCaches) CACHE_NAME = cachesGet twoCaches CACHE_NAME ∧
      ∃ c, (CACHE_NAME, c) ∈ twoCaches ∧ cacheMatch c appRequest = some appCurrent :=
  ⟨(onActivate_isolates_generation twoCaches).2.1 "drawchat-static" (by decide),
   (onActivate_isolates_generation twoCaches).2.2.1,
   (onActivate_isolates_generation twoCaches).2.2.2 appRequest appCurrent (by decide)⟩

/-! ## Response cache manager: installation -/

/-- C10 (idempotent reinstall): when every asset of the manifest is fetched
with a response `cache.addAll` accepts, the install succeeds, a second run of
the install listener leaves the cache storage exactly as the first run did,
and the current generation holds exactly one entry for each path of the
manifest. -/
theorem onInstall_idempotent (location : URL) (net : Request → FetchResult) (s : CacheStorage)
    (hscheme : location.scheme = "http" ∨ location.scheme = "https")
    (hnet : ∀ p ∈ ASSETS_TO_CACHE,
      ∃ r, net (Request.ofPath location p) = .resolved r ∧ addAllAccepts r = true) :
    (onInstall location net s).waitUntil = .resolved () ∧
      onInstall location net (onInstall location net s).caches = onInstall location net s ∧
      (∀ p ∈ ASSETS_TO_CACHE,
        ((cacheOf (onInstall location net s).caches CACHE_NAME).filter
          (requestMatches (Request.ofPath location p))).length = 1) := by
  obtain ⟨es, hmap, hnodup, hself, hinstall⟩ := onInstall_ok location net hscheme hnet
  have hcur : cacheOf (onInstall location net s).caches CACHE_NAME =
      (cacheOf s CACHE_NAME).filter (noneMatches es) ++ es := by
    rw [hinstall s]
    exact cacheOf_set _ _ _ (cachesOpen_any s CACHE_NAME)
  refine ⟨by rw [hinstall s], ?_, ?_⟩
  · have hopen : cachesOpen (onInstall location net s).caches CACHE_NAME =
        (onInstall location net s).caches := by
      apply cachesOpen_of_any
      rw [hinstall s]
      simp only [cachesSet_any, cachesOpen_any]
    have hagain : ((cacheOf s CACHE_NAME).filter (noneMatches es) ++ es).filter
        (noneMatches es) ++ es = (cacheOf s CACHE_NAME).filter (noneMatches es) ++ es := by
      rw [List.filter_append, List.filter_filter, filter_noneMatches_self es hself,
        List.append_nil]
      congr 1
      apply List.filter_congr
      intro x _
      simp
    rw [hinstall (onInstall location net s).caches, hopen, hcur, hagain]
    rw [hinstall s, cachesSet_idem]
  · intro p hp
    have hq : Request.ofPath location p ∈ es.map (·.request) := by
      rw [hmap]; exact List.mem_map_of_mem _ hp
    obtain ⟨e, he, heq⟩ := List.mem_map.1 hq
    have hold : ((cacheOf s CACHE_NAME).filter (noneMatches es)).filter
        (requestMatches e.request) = [] := by
      rw [List.filter_eq_nil_iff]
      intro x hx
      have hx2 := (List.mem_filter.1 hx).2
      simp only [noneMatches, List.all_eq_true, Bool.not_eq_true'] at hx2
      simp [hx2 e he]
    rw [hcur, ← heq, List.filter_append, hold, List.nil_append]
    exact filter_matches_length es hnodup hself e he

/-- C10 at the network `assetServer`, starting from a storage that holds an
earlier generation. -/
theorem onInstall_idempotent_witness :
    (onInstall devLocation assetServer [("drawchat-v0", [⟨appRequest, appOther⟩])]).waitUntil =
        .resolved () ∧
      onInstall devLocation assetServer
          (onInstall devLocation assetServer
            [("drawchat-v0", [⟨appRequest, appOther⟩])]).caches =
        onInstall devLocation assetServer [("drawchat-v0", [⟨appRequest, appOther⟩])] :=
  ⟨(onInstall_idempotent devLocation assetServer [("drawchat-v0", [⟨appRequest, appOther⟩])]
      (by decide) (fun p _ => ⟨_, rfl, rfl⟩)).1,
   (onInstall_idempotent devLocation assetServer [("drawchat-v0", [⟨appRequest, appOther⟩])]
      (by decide) (fun p _ => ⟨_, rfl, rfl⟩)).2.1⟩

end ServiceWorker
